import Mathlib

/-!
Verification of the debug-session engine of a DAP (Debug Adapter Protocol)
bridge server, shallowly embedded from its TypeScript source
(`dapClient.ts`, `sessionManager.ts`, `index.ts`).

The embedding models:
* the length-prefixed transport (`DAPClient.handleData` and the frame
  emission in `DAPClient.sendRequest`),
* the request/response correlator (`DAPClient.handleMessage`,
  `DAPClient.sendRequest`, `DAPClient.close`, the per-request timeout),
* the session state machine (the DAP event handlers installed by
  `setupDAPEventHandlers`, the execution-control tool cases),
* session termination (`SessionManager.terminateSession`),
* the breakpoint table (`set_breakpoint` / `remove_breakpoint` /
  `SessionManager.getBreakpoints`),
* the attach handshake (`performAttachSequence`).
-/

namespace Spec2Proof

/-! ### Characters and decimal digit strings

`handleData` works over the incremental text buffer; we model the buffer as
a `List Char`.  Frames are emitted by `sendRequest` as
`Content-Length: <N>\r\n\r\n<body>` where `N` is the length of the body.
-/

def CRchar : Char := '\r'

def LFchar : Char := '\n'

/-- The header terminator `\r\n\r\n` searched by `handleData`. -/
def term4 : List Char := [CRchar, LFchar, CRchar, LFchar]

/-- The literal header text emitted and matched: `Content-Length: `. -/
def clHeader : List Char := "Content-Length: ".data

/-- Decimal digit character for one digit value. -/
def digitChar (d : Nat) : Char :=
  match d with
  | 0 => '0' | 1 => '1' | 2 => '2' | 3 => '3' | 4 => '4'
  | 5 => '5' | 6 => '6' | 7 => '7' | 8 => '8' | _ => '9'

def isDigitChar (c : Char) : Bool :=
  48 ≤ c.toNat && c.toNat ≤ 57

/-- Fuel-driven decimal rendering of a natural (the output of JS template
interpolation of a number); fuel `n + 1` always suffices. -/
def natDigitsAux : Nat → Nat → List Char
  | 0, _ => []
  | f + 1, n =>
    if n < 10 then [digitChar n]
    else natDigitsAux f (n / 10) ++ [digitChar (n % 10)]

def natDigits (n : Nat) : List Char := natDigitsAux (n + 1) n

def digitVal (c : Char) : Nat := c.toNat - 48

/-- Value of a run of decimal digits (`parseInt` on the captured group). -/
def digitsToNat (ds : List Char) : Nat := ds.foldl (fun a c => a * 10 + digitVal c) 0

theorem digitChar_toNat (d : Nat) (h : d < 10) : (digitChar d).toNat = 48 + d := by
  interval_cases d <;> rfl

theorem isDigitChar_digitChar (d : Nat) : isDigitChar (digitChar d) = true := by
  unfold digitChar
  split <;> rfl

theorem digitChar_ne_cr (d : Nat) : digitChar d ≠ CRchar := by
  unfold digitChar
  split <;> decide

theorem digitsToNat_gen (ds : List Char) :
    ∀ a, ds.foldl (fun a c => a * 10 + digitVal c) a = a * 10 ^ ds.length + digitsToNat ds := by
  induction ds with
  | nil => intro a; simp [digitsToNat]
  | cons c cs ih =>
    intro a
    simp only [List.foldl_cons, List.length_cons, digitsToNat]
    rw [ih (a * 10 + digitVal c), ih (0 * 10 + digitVal c)]
    ring

theorem digitsToNat_append_single (xs : List Char) (c : Char) :
    digitsToNat (xs ++ [c]) = digitsToNat xs * 10 + digitVal c := by
  simp [digitsToNat, List.foldl_append]

theorem natDigitsAux_ne_nil (f n : Nat) (h : 0 < f) : natDigitsAux f n ≠ [] := by
  cases f with
  | zero => omega
  | succ g =>
    unfold natDigitsAux
    split <;> simp

theorem natDigitsAux_roundtrip :
    ∀ f n, n < f → digitsToNat (natDigitsAux f n) = n := by
  intro f
  induction f with
  | zero => intro n h; omega
  | succ g ih =>
    intro n hn
    unfold natDigitsAux
    by_cases h10 : n < 10
    · simp only [if_pos h10]
      simp [digitsToNat, digitVal, digitChar_toNat n h10]
    · simp only [if_neg h10]
      have hdiv : n / 10 < n := Nat.div_lt_self (by omega) (by omega)
      have hg : n / 10 < g := by omega
      have hrec := ih (n / 10) hg
      rw [digitsToNat_append_single, hrec]
      have hm : (digitChar (n % 10)).toNat = 48 + n % 10 :=
        digitChar_toNat (n % 10) (Nat.mod_lt n (by omega))
      simp only [digitVal, hm]
      omega

theorem natDigits_roundtrip (n : Nat) : digitsToNat (natDigits n) = n :=
  natDigitsAux_roundtrip (n + 1) n (Nat.lt_succ_self n)

theorem natDigits_ne_nil (n : Nat) : natDigits n ≠ [] :=
  natDigitsAux_ne_nil (n + 1) n (Nat.succ_pos n)

theorem natDigitsAux_all_digits (f n : Nat) :
    ∀ c ∈ natDigitsAux f n, isDigitChar c = true := by
  induction f generalizing n with
  | zero => intro c hc; simp [natDigitsAux] at hc
  | succ g ih =>
    intro c hc
    unfold natDigitsAux at hc
    split at hc
    · simp at hc
      rw [hc]; exact isDigitChar_digitChar n
    · simp at hc
      rcases hc with hc | hc
      · exact ih (n / 10) c hc
      · rw [hc]; exact isDigitChar_digitChar (n % 10)

theorem isDigitChar_ne_cr (c : Char) (h : isDigitChar c = true) : c ≠ CRchar := by
  intro he
  rw [he] at h
  simp [isDigitChar, CRchar] at h

theorem natDigits_all_digits (n : Nat) : ∀ c ∈ natDigits n, isDigitChar c = true :=
  natDigitsAux_all_digits (n + 1) n

theorem clHeader_no_cr : ∀ c ∈ clHeader, c ≠ CRchar := by decide

/-! ### Locating the header terminator

`handleData` first runs `messageBuffer.indexOf('\r\n\r\n')`; `findTerm`
returns the index of the first occurrence of `term4`, or `none` when the
call returns `-1`. -/

def findTerm : List Char → Option Nat
  | [] => none
  | c :: cs =>
    if term4.isPrefixOf (c :: cs) then some 0
    else (findTerm cs).map (· + 1)

theorem findTerm_nil : findTerm [] = none := rfl

theorem findTerm_some (l : List Char) (i : Nat) (h : findTerm l = some i) :
    ∃ s, l.drop i = term4 ++ s := by
  induction l generalizing i with
  | nil => simp [findTerm] at h
  | cons c cs ih =>
    rw [findTerm] at h
    split at h
    · rename_i hpre
      rw [List.isPrefixOf_iff_prefix] at hpre
      obtain ⟨s, hs⟩ := hpre
      refine ⟨s, ?_⟩
      simp only [Option.some.injEq] at h
      rw [← h, List.drop_zero, hs]
    · simp only [Option.map_eq_some'] at h
      obtain ⟨j, hj, hji⟩ := h
      obtain ⟨s, hs⟩ := ih j hj
      exact ⟨s, by rw [← hji]; simpa using hs⟩

theorem findTerm_prepend_clean (hd r : List Char) (hclean : ∀ c ∈ hd, c ≠ CRchar) :
    findTerm (hd ++ term4 ++ r) = some hd.length := by
  induction hd with
  | nil =>
    have hpre : term4.isPrefixOf (term4 ++ r) = true := by
      rw [List.isPrefixOf_iff_prefix]; exact List.prefix_append _ _
    simp only [List.nil_append, List.length_nil]
    rw [show term4 ++ r = CRchar :: ([LFchar, CRchar, LFchar] ++ r) from rfl]
    rw [findTerm]
    rw [show CRchar :: ([LFchar, CRchar, LFchar] ++ r) = term4 ++ r from rfl]
    simp [hpre]
  | cons c hd2 ih =>
    have hc : c ≠ CRchar := hclean c (by simp)
    have hnp : term4.isPrefixOf (c :: (hd2 ++ term4 ++ r)) = false := by
      show ((CRchar == c) && List.isPrefixOf [LFchar, CRchar, LFchar] (hd2 ++ term4 ++ r)) = false
      have : (CRchar == c) = false := by
        simp only [beq_eq_false_iff_ne, ne_eq]
        exact fun he => hc he.symm
      rw [this, Bool.false_and]
    have ih2 := ih (fun x hx => hclean x (by simp [hx]))
    simp only [List.cons_append]
    rw [findTerm]
    simp only [List.cons_append] at hnp
    rw [hnp]
    simp only [Bool.false_eq_true, if_false]
    rw [ih2]
    simp

/-! ### Parsing `Content-Length`

`handleData` then applies the regular expression `Content-Length: (\d+)`
to the header block: the first position where the literal is followed by
at least one digit matches, capturing the maximal digit run. -/

def matchCLAt (l : List Char) : Option Nat :=
  if clHeader.isPrefixOf l then
    let ds := (l.drop clHeader.length).takeWhile isDigitChar
    if ds.isEmpty then none else some (digitsToNat ds)
  else none

def findCL : List Char → Option Nat
  | [] => none
  | c :: cs =>
    match matchCLAt (c :: cs) with
    | some n => some n
    | none => findCL cs

theorem takeWhile_all (p : Char → Bool) (l : List Char) (h : ∀ c ∈ l, p c = true) :
    l.takeWhile p = l := by
  induction l with
  | nil => rfl
  | cons c cs ih =>
    rw [List.takeWhile_cons, h c (by simp)]
    simp [ih (fun x hx => h x (by simp [hx]))]

theorem matchCLAt_header (n : Nat) :
    matchCLAt (clHeader ++ natDigits n) = some n := by
  have hpre : clHeader.isPrefixOf (clHeader ++ natDigits n) = true := by
    rw [List.isPrefixOf_iff_prefix]; exact List.prefix_append _ _
  unfold matchCLAt
  rw [hpre]
  simp only [if_true, List.drop_left]
  rw [takeWhile_all isDigitChar (natDigits n) (natDigits_all_digits n)]
  have hne : (natDigits n).isEmpty = false := by
    cases hh : natDigits n with
    | nil => exact absurd hh (natDigits_ne_nil n)
    | cons a as => rfl
  rw [hne]
  simp [natDigits_roundtrip n]

theorem findCL_header (n : Nat) :
    findCL (clHeader ++ natDigits n) = some n := by
  have : clHeader ++ natDigits n = 'C' :: ("ontent-Length: ".data ++ natDigits n) := rfl
  rw [this, findCL, ← this, matchCLAt_header n]

theorem findTerm_none_of_short (hd r p : List Char)
    (hclean : ∀ c ∈ hd, c ≠ CRchar)
    (hp : p <+: hd ++ (term4 ++ r)) (hlen : p.length < hd.length + 4) :
    findTerm p = none := by
  cases hf : findTerm p with
  | none => rfl
  | some i =>
    exfalso
    obtain ⟨s, hs⟩ := findTerm_some p i hf
    have hi4 : i + 4 ≤ p.length := by
      have := congrArg List.length hs
      simp only [List.length_drop, List.length_append, term4] at this
      simp only [List.length_cons, List.length_nil] at this
      omega
    have hihd : i < hd.length := by omega
    have hdropP : p.drop i <+: (hd ++ (term4 ++ r)).drop i := hp.drop i
    have hfull : (hd ++ (term4 ++ r)).drop i = hd.drop i ++ (term4 ++ r) := by
      rw [List.drop_append_eq_append_drop]
      have : i - hd.length = 0 := by omega
      rw [this, List.drop_zero]
    have hcons : hd.drop i = hd[i] :: hd.drop (i + 1) := List.drop_eq_getElem_cons hihd
    rw [hs, hfull, hcons] at hdropP
    obtain ⟨t, ht⟩ := hdropP
    have hhead : CRchar = hd[i] := by
      have h0 : ((term4 ++ s) ++ t).head? =
          (hd[i] :: (hd.drop (i + 1) ++ (term4 ++ r))).head? := congrArg List.head? ht
      rw [show (term4 ++ s) ++ t = CRchar :: (([LFchar, CRchar, LFchar] ++ s) ++ t) from rfl,
        List.head?_cons, List.head?_cons] at h0
      exact Option.some.inj h0
    exact hclean hd[i] (List.getElem_mem hihd) hhead.symm

/-! ### The frame extraction loop

`handleData` appends the incoming chunk to `messageBuffer` and then loops:
locate `\r\n\r\n`; parse `Content-Length` from the header block; if fewer
than `contentLength` bytes follow the terminator, stop; otherwise slice
out the body, advance the buffer past the message, and repeat.  The loop
is modelled with explicit fuel (each iteration consumes at least four
buffer characters, so `length + 1` iterations always suffice). -/

/-- One iteration of the `handleData` loop: find the header terminator,
parse `Content-Length` from the header block, and if the complete body is
buffered return it together with the advanced buffer; `none` means the
loop breaks with the buffer unchanged (incomplete message, or a header
block without a parsable `Content-Length`). -/
def extractOne (buf : List Char) : Option (List Char × List Char) :=
  match findTerm buf with
  | none => none
  | some headerEnd =>
    match findCL (buf.take headerEnd) with
    | none => none
    | some contentLength =>
      if buf.length < headerEnd + 4 + contentLength then none
      else some ((buf.drop (headerEnd + 4)).take contentLength,
                 buf.drop (headerEnd + 4 + contentLength))

def extractLoopAux : Nat → List Char → List (List Char) × List Char
  | 0, buf => ([], buf)
  | f + 1, buf =>
    match extractOne buf with
    | none => ([], buf)
    | some (body, rest) =>
      let r := extractLoopAux f rest
      (body :: r.1, r.2)

def extractLoop (buf : List Char) : List (List Char) × List Char :=
  extractLoopAux (buf.length + 1) buf

theorem extractOne_none_noTerm (buf : List Char) (h : findTerm buf = none) :
    extractOne buf = none := by
  unfold extractOne
  rw [h]

theorem extractOne_none_short (buf : List Char) (headerEnd contentLength : Nat)
    (hft : findTerm buf = some headerEnd)
    (hcl : findCL (buf.take headerEnd) = some contentLength)
    (hlen : buf.length < headerEnd + 4 + contentLength) :
    extractOne buf = none := by
  unfold extractOne
  simp only [hft, hcl]
  simp [hlen]

theorem extractOne_some (buf : List Char) (headerEnd contentLength : Nat)
    (hft : findTerm buf = some headerEnd)
    (hcl : findCL (buf.take headerEnd) = some contentLength)
    (hlen : headerEnd + 4 + contentLength ≤ buf.length) :
    extractOne buf = some ((buf.drop (headerEnd + 4)).take contentLength,
                           buf.drop (headerEnd + 4 + contentLength)) := by
  unfold extractOne
  simp only [hft, hcl]
  rw [if_neg (by omega)]

theorem extractOne_rest_shorter (buf body rest : List Char)
    (h : extractOne buf = some (body, rest)) : rest.length + 4 ≤ buf.length := by
  unfold extractOne at h
  cases hft : findTerm buf with
  | none => rw [hft] at h; simp at h
  | some headerEnd =>
    simp only [hft] at h
    cases hcl : findCL (buf.take headerEnd) with
    | none =>
      simp only [hcl] at h
      simp at h
    | some contentLength =>
      simp only [hcl] at h
      split at h
      · simp at h
      · rename_i hge
        simp only [Option.some.injEq, Prod.mk.injEq] at h
        have : rest = buf.drop (headerEnd + 4 + contentLength) := h.2.symm
        rw [this]
        simp only [List.length_drop]
        omega

theorem extractLoopAux_congr :
    ∀ f g buf, buf.length < f → buf.length < g →
      extractLoopAux f buf = extractLoopAux g buf := by
  intro f
  induction f with
  | zero => intro g buf hf; omega
  | succ f2 ih =>
    intro g buf hf hg
    cases g with
    | zero => omega
    | succ g2 =>
      rw [extractLoopAux, extractLoopAux]
      cases hext : extractOne buf with
      | none => rfl
      | some pr =>
        obtain ⟨body, rest⟩ := pr
        have hlen := extractOne_rest_shorter buf body rest hext
        simp only
        rw [ih g2 rest (by omega) (by omega)]

theorem extractLoop_blocked (buf : List Char) (h : extractOne buf = none) :
    extractLoop buf = ([], buf) := by
  unfold extractLoop
  rw [extractLoopAux, h]

theorem extractLoop_step (buf body rest : List Char)
    (h : extractOne buf = some (body, rest)) :
    extractLoop buf = (body :: (extractLoop rest).1, (extractLoop rest).2) := by
  have hlen := extractOne_rest_shorter buf body rest h
  unfold extractLoop
  rw [extractLoopAux, h]
  simp only
  rw [extractLoopAux_congr buf.length (rest.length + 1) rest (by omega) (by omega)]

theorem extractLoop_nil : extractLoop [] = ([], []) := by
  apply extractLoop_blocked
  exact extractOne_none_noTerm [] findTerm_nil

/-! ### Frames

`sendRequest` emits `Content-Length: ${messageContent.length}\r\n\r\n`
followed by the message content. -/

def frame (msg : List Char) : List Char :=
  clHeader ++ natDigits msg.length ++ term4 ++ msg

def framesJoin (msgs : List (List Char)) : List Char := (msgs.map frame).flatten

theorem frameHeader_no_cr (n : Nat) :
    ∀ c ∈ clHeader ++ natDigits n, c ≠ CRchar := by
  intro c hc
  rcases List.mem_append.mp hc with hc | hc
  · exact clHeader_no_cr c hc
  · exact isDigitChar_ne_cr c (natDigits_all_digits n c hc)

theorem frame_assoc (m s : List Char) :
    frame m ++ s = (clHeader ++ natDigits m.length) ++ term4 ++ (m ++ s) := by
  simp [frame, List.append_assoc]

theorem frame_length (m : List Char) :
    (frame m).length = (clHeader ++ natDigits m.length).length + 4 + m.length := by
  simp [frame, term4]
  omega

theorem extractOne_frame (m s : List Char) :
    extractOne (frame m ++ s) = some (m, s) := by
  set hd : List Char := clHeader ++ natDigits m.length with hhd
  have hshape : frame m ++ s = hd ++ term4 ++ (m ++ s) := frame_assoc m s
  have hft : findTerm (frame m ++ s) = some hd.length := by
    rw [hshape]
    exact findTerm_prepend_clean hd (m ++ s) (frameHeader_no_cr m.length)
  have htake : (frame m ++ s).take hd.length = hd := by
    rw [hshape, List.append_assoc, List.take_left]
  have hcl : findCL ((frame m ++ s).take hd.length) = some m.length := by
    rw [htake, hhd]
    exact findCL_header m.length
  have hlen : hd.length + 4 + m.length ≤ (frame m ++ s).length := by
    rw [hshape]
    simp [term4]
    omega
  rw [extractOne_some (frame m ++ s) hd.length m.length hft hcl hlen]
  have hlen4 : (hd ++ term4).length = hd.length + 4 := by simp [term4]
  have hdrop4 : (frame m ++ s).drop (hd.length + 4) = m ++ s := by
    rw [hshape, List.drop_left' hlen4]
  have hbody : ((frame m ++ s).drop (hd.length + 4)).take m.length = m := by
    rw [hdrop4, List.take_left]
  have hrest : (frame m ++ s).drop (hd.length + 4 + m.length) = s := by
    have hsh2 : frame m ++ s = ((hd ++ term4) ++ m) ++ s := by
      rw [hshape]
      exact (List.append_assoc (hd ++ term4) m s).symm
    have hlen2 : ((hd ++ term4) ++ m).length = hd.length + 4 + m.length := by
      simp [term4]
      omega
    rw [hsh2, List.drop_left' hlen2]
  rw [hbody, hrest]

theorem prefix_take_of_le {q l1 l2 : List Char} (h : q <+: l1 ++ l2)
    (hle : q.length ≤ l1.length) : q = l1.take q.length := by
  have := List.prefix_iff_eq_take.mp h
  rw [this, List.take_append_eq_append_take]
  have : q.length - l1.length = 0 := by omega
  rw [this]
  simp

theorem frame_assoc2 (m : List Char) :
    frame m = (clHeader ++ natDigits m.length) ++ (term4 ++ m) := by
  simp [frame, List.append_assoc]

theorem frame_assoc3 (m : List Char) :
    frame m = ((clHeader ++ natDigits m.length) ++ term4) ++ m := by
  rw [frame_assoc2]
  exact (List.append_assoc (clHeader ++ natDigits m.length) term4 m).symm

theorem extractOne_incomplete (m q : List Char) (hq : q <+: frame m)
    (hlt : q.length < (frame m).length) : extractOne q = none := by
  set hd : List Char := clHeader ++ natDigits m.length with hhd
  by_cases hshort : q.length < hd.length + 4
  · apply extractOne_none_noTerm
    apply findTerm_none_of_short hd m q (frameHeader_no_cr m.length)
    · rw [← frame_assoc2]; exact hq
    · exact hshort
  · have hlen4 : (hd ++ term4).length = hd.length + 4 := by simp [term4]
    have hq0 : q = ((hd ++ term4) ++ m).take q.length := by
      conv_lhs => rw [List.prefix_iff_eq_take.mp hq]
      rw [← frame_assoc3]
    have hq2 : q = (hd ++ term4) ++ m.take (q.length - (hd.length + 4)) := by
      conv_lhs => rw [hq0]
      rw [List.take_append_eq_append_take,
        List.take_of_length_le (show (hd ++ term4).length ≤ q.length by rw [hlen4]; omega),
        hlen4]
    set q2 : List Char := m.take (q.length - (hd.length + 4)) with hq2def
    have hflen := frame_length m
    rw [← hhd] at hflen
    have hq2len : q2.length = q.length - (hd.length + 4) := by
      rw [hq2def, List.length_take]
      omega
    have hq2lt : q2.length < m.length := by omega
    have hft : findTerm q = some hd.length := by
      rw [hq2]
      exact findTerm_prepend_clean hd q2 (frameHeader_no_cr m.length)
    have htake : q.take hd.length = hd := by
      rw [hq2, List.append_assoc, List.take_left]
    have hcl : findCL (q.take hd.length) = some m.length := by
      rw [htake, hhd]; exact findCL_header m.length
    apply extractOne_none_short q hd.length m.length hft hcl
    have hqlen : q.length = hd.length + 4 + q2.length := by
      have hql := congrArg List.length hq2
      simp only [List.length_append, hlen4] at hql
      omega
    omega

theorem framesJoin_nil : framesJoin [] = [] := rfl

theorem framesJoin_cons (m : List Char) (L : List (List Char)) :
    framesJoin (m :: L) = frame m ++ framesJoin L := by
  simp [framesJoin]

theorem extractLoop_framesJoin_append (L : List (List Char)) (s : List Char) :
    extractLoop (framesJoin L ++ s) = (L ++ (extractLoop s).1, (extractLoop s).2) := by
  induction L with
  | nil => simp [framesJoin_nil]
  | cons m L2 ih =>
    have hsh : framesJoin (m :: L2) ++ s = frame m ++ (framesJoin L2 ++ s) := by
      rw [framesJoin_cons, List.append_assoc]
    rw [hsh, extractLoop_step _ _ _ (extractOne_frame m (framesJoin L2 ++ s)), ih]
    simp

theorem extractLoop_framesJoin (L : List (List Char)) :
    extractLoop (framesJoin L) = (L, []) := by
  have := extractLoop_framesJoin_append L []
  rw [List.append_nil, extractLoop_nil] at this
  simpa using this

/-- Normal form of the extraction loop on any prefix of a frame stream:
the loop extracts exactly the complete frames and leaves the partial
remainder in the buffer. -/
theorem extractLoop_of_prefix :
    ∀ L q, q <+: framesJoin L →
      ∃ L1 L2 p, L = L1 ++ L2 ∧ q = framesJoin L1 ++ p ∧ extractLoop q = (L1, p) ∧
        (L2 = [] → p = []) ∧ (∀ m ms, L2 = m :: ms → p.length < (frame m).length) := by
  intro L
  induction L with
  | nil =>
    intro q hq
    have hq0 : q = [] := List.prefix_nil.mp hq
    exact ⟨[], [], [], rfl, by simp [hq0, framesJoin_nil], by simp [hq0, extractLoop_nil],
      fun _ => rfl, fun m ms hms => absurd hms (by simp)⟩
  | cons m L2 ih =>
    intro q hq
    rw [framesJoin_cons] at hq
    by_cases hlen : q.length < (frame m).length
    · have hqf : q <+: frame m := by
        have h1 : q = (frame m).take q.length :=
          prefix_take_of_le hq (by omega)
        rw [h1]
        exact List.take_prefix _ _
      have hext : extractLoop q = ([], q) :=
        extractLoop_blocked q (extractOne_incomplete m q hqf hlen)
      refine ⟨[], m :: L2, q, rfl, by simp [framesJoin_nil], hext, ?_, ?_⟩
      · intro h; cases h
      · intro m2 ms hms
        cases hms
        exact hlen
    · have hq0 : q = (frame m ++ framesJoin L2).take q.length := List.prefix_iff_eq_take.mp hq
      have hq1 : q = frame m ++ (framesJoin L2).take (q.length - (frame m).length) := by
        conv_lhs => rw [hq0]
        rw [List.take_append_eq_append_take,
          List.take_of_length_le (show (frame m).length ≤ q.length by omega)]
      have hpre2 : (framesJoin L2).take (q.length - (frame m).length) <+: framesJoin L2 :=
        List.take_prefix _ _
      obtain ⟨L1, L2b, p, hL, hqp, hext, hnil, hlt⟩ :=
        ih ((framesJoin L2).take (q.length - (frame m).length)) hpre2
      refine ⟨m :: L1, L2b, p, by rw [hL]; rfl, ?_, ?_, hnil, hlt⟩
      · rw [hq1, hqp, framesJoin_cons, List.append_assoc]
      · rw [hq1, extractLoop_step _ _ _
          (extractOne_frame m ((framesJoin L2).take (q.length - (frame m).length))),
          hext]

/-- Incremental composability: handing `extractLoop` the already-buffered
remainder plus a new chunk continues exactly where it left off. -/
theorem extractLoop_chunk (L : List (List Char)) (q c : List Char)
    (h : q ++ c <+: framesJoin L) :
    extractLoop (q ++ c) =
      ((extractLoop q).1 ++ (extractLoop ((extractLoop q).2 ++ c)).1,
       (extractLoop ((extractLoop q).2 ++ c)).2) := by
  have hq : q <+: framesJoin L := (List.prefix_append q c).trans h
  obtain ⟨L1, L2, p, hL, hqp, hext, hnil, hlt⟩ := extractLoop_of_prefix L q hq
  have hshape : q ++ c = framesJoin L1 ++ (p ++ c) := by
    rw [hqp, List.append_assoc]
  rw [hshape, extractLoop_framesJoin_append L1 (p ++ c), hext]

/-! ### Feeding chunks

`handleData(data)` appends the chunk to `messageBuffer` and extracts every
complete frame; `feedChunks` replays a whole sequence of `data` events from
an initially empty buffer, collecting the extracted messages in order. -/

def handleData (buffered chunk : List Char) : List (List Char) × List Char :=
  extractLoop (buffered ++ chunk)

def feedStep (acc : List (List Char) × List Char) (c : List Char) :
    List (List Char) × List Char :=
  let r := handleData acc.2 c
  (acc.1 ++ r.1, r.2)

def feedChunks (chunks : List (List Char)) : List (List Char) × List Char :=
  chunks.foldl feedStep ([], [])

theorem feedChunks_invariant :
    ∀ (chunks : List (List Char)) (pre : List Char) (out : List (List Char)) (p : List Char)
      (L : List (List Char)),
      pre ++ chunks.flatten = framesJoin L → extractLoop pre = (out, p) →
      chunks.foldl feedStep (out, p) = (L, []) := by
  intro chunks
  induction chunks with
  | nil =>
    intro pre out p L hpre hext
    rw [List.flatten_nil, List.append_nil] at hpre
    rw [hpre, extractLoop_framesJoin] at hext
    rw [List.foldl_nil]
    exact hext.symm
  | cons c cs ih =>
    intro pre out p L hpre hext
    rw [List.flatten_cons, ← List.append_assoc] at hpre
    have hprefix : (pre ++ c) <+: framesJoin L := ⟨cs.flatten, hpre⟩
    have hcomp := extractLoop_chunk L pre c hprefix
    rw [hext] at hcomp
    simp only at hcomp
    rw [List.foldl_cons]
    have hstep : feedStep (out, p) c =
        (out ++ (extractLoop (p ++ c)).1, (extractLoop (p ++ c)).2) := rfl
    rw [hstep]
    exact ih (pre ++ c) (out ++ (extractLoop (p ++ c)).1) (extractLoop (p ++ c)).2 L hpre hcomp

/-- C5: for any sequence of outbound-framed DAP messages and any splitting
of the concatenated byte stream into chunks, feeding the chunks to the
incremental parser of `handleData` yields exactly the original message
sequence, each delivered exactly once and in order (and the buffer is
empty at the end). -/
theorem transport_deframe_roundtrip (msgs chunks : List (List Char))
    (h : chunks.flatten = framesJoin msgs) :
    feedChunks chunks = (msgs, []) := by
  unfold feedChunks
  exact feedChunks_invariant chunks [] [] [] msgs (by simpa using h) extractLoop_nil

theorem transport_deframe_roundtrip_witness :
    (["Content-Le".data, "ngth: 2\r\n\r".data,
      "\nabContent-Length: 1\r\n\r\nc".data] : List (List Char)).flatten
        = framesJoin ["ab".data, "c".data] ∧
      feedChunks ["Content-Le".data, "ngth: 2\r\n\r".data,
        "\nabContent-Length: 1\r\n\r\nc".data] = (["ab".data, "c".data], []) :=
  ⟨by decide, transport_deframe_roundtrip _ _ (by decide)⟩

/-! ### The correlator (`DAPClient` state)

`DAPClient` holds `connected`, the socket, `sequenceNumber` (starting at 1)
and `pendingRequests`, a `Map` from sequence number to the promise
callbacks of the request.  We model the map as an association list in
insertion order (its keys are distinct: every key is a freshly assigned
sequence number); the promise callbacks are represented by the observable
outcome delivered to them.  `Map.delete` of a key is modelled by filtering
that key out, which agrees with it on maps with distinct keys. -/

inductive Outcome where
  | resolvedWith (body : Option String)
  | rejectedWith (errMsg : String)
deriving DecidableEq

structure DAPResponseMsg where
  request_seq : Nat
  success : Bool
  message : Option String
  body : Option String
deriving DecidableEq

structure ClientState where
  connected : Bool
  socketPresent : Bool
  sequenceNumber : Nat
  pendingRequests : List (Nat × String)
deriving DecidableEq

/-- JS `response.message || 'Request failed'`: `undefined` and the empty
string are falsy. -/
def jsOrRequestFailed : Option String → String
  | none => "Request failed"
  | some s => if s = "" then "Request failed" else s

/-- The `response` branch of `DAPClient.handleMessage`: look up the pending
entry by `request_seq`; if present, delete it and resolve with
`response.body` on `success`, else reject with
`new Error(response.message || 'Request failed')`; if absent, do nothing. -/
def handleResponse (st : ClientState) (resp : DAPResponseMsg) :
    ClientState × List (Nat × Outcome) :=
  match st.pendingRequests.find? (fun e => e.1 == resp.request_seq) with
  | some _ =>
    ({ st with pendingRequests :=
        st.pendingRequests.filter (fun e => e.1 != resp.request_seq) },
     [(resp.request_seq,
        if resp.success then Outcome.resolvedWith resp.body
        else Outcome.rejectedWith (jsOrRequestFailed resp.message))])
  | none => (st, [])

structure TimerSpec where
  delayMs : Nat
  seq : Nat
  command : String
deriving DecidableEq

structure SendOutcome where
  newState : ClientState
  written : List (List Char)
  timers : List TimerSpec
  result : Except String Nat

/-- `DAPClient.sendRequest`: when the client is not connected or the socket
is gone it throws `'DAP client not connected'` before touching any state;
otherwise it consumes the next sequence number, writes one frame, registers
the pending entry and arms a 10-second timeout.  The serialized JSON
request text is abstracted as `payload`. -/
def sendRequest (st : ClientState) (command : String) (payload : List Char) :
    SendOutcome :=
  if !st.connected || !st.socketPresent then
    ⟨st, [], [], Except.error "DAP client not connected"⟩
  else
    let seq := st.sequenceNumber
    ⟨{ st with
        sequenceNumber := seq + 1
        pendingRequests := st.pendingRequests ++ [(seq, command)] },
      [frame payload], [⟨10000, seq, command⟩], Except.ok seq⟩

/-- `DAPClient.close`: ends and drops the socket and clears `connected`.
`pendingRequests` is not touched and no promise is settled. -/
def closeClient (st : ClientState) : ClientState × List (Nat × Outcome) :=
  ({ st with
      socketPresent := false
      connected := false }, [])

/-- The socket `close` handler: clears `connected` and emits the
`disconnected` event.  `pendingRequests` is not touched. -/
def onSocketClosed (st : ClientState) : ClientState × List String :=
  ({ st with connected := false }, ["disconnected"])

/-- The timeout armed by `sendRequest`: after 10 seconds, if the request is
still pending, delete it and reject with `Request timeout: <command>`. -/
def onRequestTimeout (st : ClientState) (t : TimerSpec) :
    ClientState × List (Nat × Outcome) :=
  match st.pendingRequests.find? (fun e => e.1 == t.seq) with
  | some _ =>
    ({ st with pendingRequests := st.pendingRequests.filter (fun e => e.1 != t.seq) },
     [(t.seq, Outcome.rejectedWith ("Request timeout: " ++ t.command))])
  | none => (st, [])

/-- C10: the spec of `sendRequest` on a disconnected client: it fails with
exactly the `DAP client not connected` error, the state (sequence number
and pending map) is unchanged, nothing is written, no timer armed. -/
def sendNotConnectedSpec (st : ClientState) (command : String)
    (payload : List Char) : Prop :=
  sendRequest st command payload =
    ⟨st, [], [], Except.error "DAP client not connected"⟩

/-- C10: every typed DAP request goes through `sendRequest`; invoked while
the client is not connected (or the socket is absent) it throws
`'DAP client not connected'` immediately, writes nothing, consumes no
sequence number and adds no pending entry. -/
theorem dap_send_not_connected_noop (st : ClientState) (command : String)
    (payload : List Char) (h : st.connected = false ∨ st.socketPresent = false) :
    sendNotConnectedSpec st command payload := by
  unfold sendNotConnectedSpec sendRequest
  rcases h with h | h <;> rw [h] <;> simp

theorem dap_send_not_connected_noop_witness :
    ((false : Bool) = false ∨ (true : Bool) = false) ∧
      sendNotConnectedSpec ⟨false, true, 5, [(1, "threads")]⟩ "evaluate" "x".data :=
  ⟨Or.inl rfl,
    dap_send_not_connected_noop ⟨false, true, 5, [(1, "threads")]⟩ "evaluate" "x".data
      (Or.inl rfl)⟩

/-- Record update helper: the client state with a replaced pending map. -/
def withPending (st : ClientState) (l : List (Nat × String)) : ClientState :=
  { st with pendingRequests := l }

/-- C6 as stated: on a matching response the pending entry is removed and
the promise is resolved with `response.body` when `success`, and otherwise
rejected with an error carrying exactly `response.message` (modelled as
`resp.message.getD ""`: the carried text is the message itself). -/
abbrev responseClaimAsStated (st : ClientState) (resp : DAPResponseMsg) : Prop :=
  (st.pendingRequests.find? (fun e => e.1 == resp.request_seq)).isSome →
    (∀ e ∈ (handleResponse st resp).1.pendingRequests, e.1 ≠ resp.request_seq) ∧
    (handleResponse st resp).2 =
      [(resp.request_seq,
        if resp.success then Outcome.resolvedWith resp.body
        else Outcome.rejectedWith (resp.message.getD ""))]

/-- C6 counterexample: a failed response whose `message` is the empty
string is rejected with the fallback text `Request failed` (JS
`response.message || 'Request failed'` treats `""` as falsy), not with an
error carrying `response.message`. -/
theorem dap_correlator_reject_empty_message_cex :
    ¬ responseClaimAsStated ⟨true, true, 2, [(1, "evaluate")]⟩
        ⟨1, false, some "", none⟩ := by
  decide

/-- C6 (amended): effect of `handleMessage` on a response whose
`request_seq` matches a pending entry: the entry is removed (all other
entries survive, connection flag and sequence counter untouched) and the
promise is resolved with `response.body` on `success`, else rejected with
an error carrying `response.message` when that is a non-empty string and
the fallback `Request failed` otherwise. -/
def responseResolutionSpec (st : ClientState) (resp : DAPResponseMsg) : Prop :=
  (∀ e ∈ (handleResponse st resp).1.pendingRequests, e.1 ≠ resp.request_seq) ∧
  (∀ e ∈ st.pendingRequests, e.1 ≠ resp.request_seq →
      e ∈ (handleResponse st resp).1.pendingRequests) ∧
  (handleResponse st resp).1.connected = st.connected ∧
  (handleResponse st resp).1.sequenceNumber = st.sequenceNumber ∧
  (handleResponse st resp).2 =
    [(resp.request_seq,
      if resp.success then Outcome.resolvedWith resp.body
      else Outcome.rejectedWith (jsOrRequestFailed resp.message))]

/-- Handling two responses in sequence, collecting both outcome lists. -/
def handleTwo (st : ClientState) (r1 r2 : DAPResponseMsg) :
    ClientState × List (Nat × Outcome) :=
  ((handleResponse (handleResponse st r1).1 r2).1,
   (handleResponse st r1).2 ++ (handleResponse (handleResponse st r1).1 r2).2)

theorem find?_filter_isSome (l : List (Nat × String)) (s1 s2 : Nat) (hne : s2 ≠ s1)
    (h : (l.find? (fun e => e.1 == s2)).isSome) :
    ((l.filter (fun e => e.1 != s1)).find? (fun e => e.1 == s2)).isSome := by
  rw [List.find?_isSome] at h ⊢
  obtain ⟨x, hx, hpx⟩ := h
  refine ⟨x, ?_, hpx⟩
  rw [List.mem_filter]
  refine ⟨hx, ?_⟩
  have hxs : x.1 = s2 := by simpa using hpx
  simp [hxs, hne]

theorem handleResponse_found (st : ClientState) (resp : DAPResponseMsg) (e : Nat × String)
    (he : st.pendingRequests.find? (fun x => x.1 == resp.request_seq) = some e) :
    handleResponse st resp =
      (withPending st (st.pendingRequests.filter (fun x => x.1 != resp.request_seq)),
       [(resp.request_seq,
          if resp.success then Outcome.resolvedWith resp.body
          else Outcome.rejectedWith (jsOrRequestFailed resp.message))]) := by
  unfold handleResponse withPending
  rw [he]

/-- C6 (amended, proved): a matching response removes exactly its pending
entry and settles its promise from the response alone; moreover two
responses for distinct pending requests can be processed in either order
with the same final state and the same settled outcomes. -/
theorem dap_correlator_response_resolution (st : ClientState) (r1 : DAPResponseMsg)
    (h1 : (st.pendingRequests.find? (fun e => e.1 == r1.request_seq)).isSome) :
    responseResolutionSpec st r1 ∧
      ∀ r2 : DAPResponseMsg,
        (st.pendingRequests.find? (fun e => e.1 == r2.request_seq)).isSome →
        r1.request_seq ≠ r2.request_seq →
        (handleTwo st r1 r2).1 = (handleTwo st r2 r1).1 ∧
        (handleTwo st r1 r2).2.Perm (handleTwo st r2 r1).2 := by
  obtain ⟨e1, he1⟩ := Option.isSome_iff_exists.mp h1
  have heq1 := handleResponse_found st r1 e1 he1
  constructor
  · unfold responseResolutionSpec
    rw [heq1]
    refine ⟨?_, ?_, rfl, rfl, rfl⟩
    · intro e he
      simp only [withPending, List.mem_filter] at he
      simpa using he.2
    · intro e he hne
      simp only [withPending, List.mem_filter]
      exact ⟨he, by simpa using hne⟩
  · intro r2 h2 hne
    obtain ⟨e2, he2⟩ := Option.isSome_iff_exists.mp h2
    have heq2 := handleResponse_found st r2 e2 he2
    have h21 : (((st.pendingRequests.filter (fun e => e.1 != r1.request_seq)).find?
        (fun e => e.1 == r2.request_seq))).isSome :=
      find?_filter_isSome st.pendingRequests r1.request_seq r2.request_seq
        (fun hx => hne hx.symm) h2
    obtain ⟨e21, he21⟩ := Option.isSome_iff_exists.mp h21
    have h12 : (((st.pendingRequests.filter (fun e => e.1 != r2.request_seq)).find?
        (fun e => e.1 == r1.request_seq))).isSome :=
      find?_filter_isSome st.pendingRequests r2.request_seq r1.request_seq hne h1
    obtain ⟨e12, he12⟩ := Option.isSome_iff_exists.mp h12
    have heqA := handleResponse_found
      (withPending st (st.pendingRequests.filter (fun x => x.1 != r1.request_seq))) r2 e21 he21
    have heqB := handleResponse_found
      (withPending st (st.pendingRequests.filter (fun x => x.1 != r2.request_seq))) r1 e12 he12
    constructor
    · unfold handleTwo
      rw [heq1, heq2]
      simp only
      rw [heqA, heqB]
      exact congrArg (withPending st) (List.filter_comm _ _ _)
    · unfold handleTwo
      rw [heq1, heq2]
      simp only
      rw [heqA, heqB]
      simp only
      exact List.Perm.swap _ _ []

theorem dap_correlator_response_resolution_witness :
    ((([(1, "stackTrace"), (2, "scopes")] : List (Nat × String)).find?
        (fun e => e.1 == 1)).isSome = true) ∧
      responseResolutionSpec ⟨true, true, 3, [(1, "stackTrace"), (2, "scopes")]⟩
        ⟨1, true, none, some "frames"⟩ :=
  ⟨by decide,
    (dap_correlator_response_resolution
      ⟨true, true, 3, [(1, "stackTrace"), (2, "scopes")]⟩
      ⟨1, true, none, some "frames"⟩ (by decide)).1⟩

/-- C4 as stated: when the DAP socket is closed every pending request is
rejected (with a disconnection error) at that moment, leaving no entry
pending. -/
def closeRejectsPendingClaim (st : ClientState) : Prop :=
  (closeClient st).1.pendingRequests = [] ∧
  ∀ e ∈ st.pendingRequests,
    ∃ msg, (e.1, Outcome.rejectedWith msg) ∈ (closeClient st).2

/-- C4 counterexample: `DAPClient.close` (and the socket `close` handler)
never touches `pendingRequests` and settles no promise: with request 1
(`variables`) in flight, after `close` the entry is still pending and no
rejection was delivered. -/
theorem dap_close_reject_cex :
    ¬ closeRejectsPendingClaim ⟨true, true, 2, [(1, "variables")]⟩ := by
  intro h
  have h1 := h.1
  simp [closeClient] at h1

/-- C4 (amended): closing the socket leaves the pending map untouched and
rejects nothing. -/
def closeLeavesPendingSpec (st : ClientState) : Prop :=
  (closeClient st).1.pendingRequests = st.pendingRequests ∧
  (closeClient st).2 = [] ∧
  (onSocketClosed st).1.pendingRequests = st.pendingRequests ∧
  (onSocketClosed st).2 = ["disconnected"]

/-- C4 (amended, proved): closing the DAP socket does not reject pending
requests — they stay in the map; each pending request is instead settled
by the 10-second timeout armed when it was sent, which removes the entry
and rejects it with `Request timeout: <command>` (a timeout error, not a
disconnection error). -/
theorem dap_close_pending_timeout (st : ClientState) (seq : Nat) (cmd : String)
    (h : (seq, cmd) ∈ st.pendingRequests) :
    closeLeavesPendingSpec st ∧
      (∀ command payload, st.connected = true → st.socketPresent = true →
        (sendRequest st command payload).timers = [⟨10000, st.sequenceNumber, command⟩]) ∧
      (onRequestTimeout st ⟨10000, seq, cmd⟩).2 =
        [(seq, Outcome.rejectedWith ("Request timeout: " ++ cmd))] ∧
      ∀ e ∈ (onRequestTimeout st ⟨10000, seq, cmd⟩).1.pendingRequests, e.1 ≠ seq := by
  have hfind : (st.pendingRequests.find? (fun e => e.1 == seq)).isSome := by
    rw [List.find?_isSome]
    exact ⟨(seq, cmd), h, by simp⟩
  obtain ⟨e0, he0⟩ := Option.isSome_iff_exists.mp hfind
  have htime : onRequestTimeout st ⟨10000, seq, cmd⟩ =
      (withPending st (st.pendingRequests.filter (fun e => e.1 != seq)),
       [(seq, Outcome.rejectedWith ("Request timeout: " ++ cmd))]) := by
    unfold onRequestTimeout withPending
    rw [he0]
  refine ⟨⟨rfl, rfl, rfl, rfl⟩, ?_, ?_, ?_⟩
  · intro command payload hc hs
    unfold sendRequest
    rw [hc, hs]
    simp
  · rw [htime]
  · rw [htime]
    intro e he
    simp only [withPending, List.mem_filter] at he
    simpa using he.2

theorem dap_close_pending_timeout_witness :
    ((3, "variables") ∈ ([(3, "variables")] : List (Nat × String))) ∧
      closeLeavesPendingSpec ⟨true, true, 4, [(3, "variables")]⟩ :=
  ⟨by decide,
    (dap_close_pending_timeout ⟨true, true, 4, [(3, "variables")]⟩ 3 "variables"
      (by decide)).1⟩

/-! ### The session and its state machine

`DebugSession` (sessionManager.ts) with the fields the claims inspect.
The subprocess handle is abstracted to its presence and its `killed` flag;
the DAP client to its presence.  `lastStopFrames` records the result of
the stack-trace fetch performed by the `stopped` handler (`none`: the
fetch failed after its retries), so that the C2 invariant can refer to
"the stack trace fetched after the `stopped` event". -/

inductive SessionState where
  | starting
  | running
  | paused
  | stopped
  | errored
deriving DecidableEq

structure StackFrameModel where
  id : Nat
  name : String
  path : Option String
  line : Nat
deriving DecidableEq

structure Breakpoint where
  id : Nat
  file : String
  line : Nat
  verified : Bool
deriving DecidableEq

structure Session where
  id : String
  scriptPath : String
  hasPythonProcess : Bool
  processKilled : Bool
  hasDapClient : Bool
  port : Nat
  state : SessionState
  breakpoints : List (String × List Breakpoint)
  currentThreadId : Option Nat
  currentFrameId : Option Nat
  lastStopFrames : Option (List StackFrameModel)
deriving DecidableEq

/-- `SessionManager.createSession`: fresh session in `starting` with an
empty breakpoint table and no thread/frame context. -/
def createSession (sid path : String) (port : Nat) : Session :=
  ⟨sid, path, false, false, false, port, SessionState.starting, [], none, none, none⟩

/-- The `stopped` handler of `setupDAPEventHandlers`, taken as one step
with the stack-trace fetch result as an input: a falsy `body.threadId`
(absent or 0) returns without changes; otherwise the current thread id is
set and the state becomes `paused`, and the current frame id is set to the
top frame when the fetched stack is non-empty. -/
def stoppedHandler (s : Session) (threadId : Option Nat)
    (fetched : Option (List StackFrameModel)) : Session :=
  match threadId with
  | none => s
  | some tid =>
    if tid = 0 then s
    else
      match fetched with
      | some (f :: fs) =>
        { s with
            currentThreadId := some tid
            state := SessionState.paused
            lastStopFrames := some (f :: fs)
            currentFrameId := some f.id }
      | other =>
        { s with
            currentThreadId := some tid
            state := SessionState.paused
            lastStopFrames := other }

/-- The `continued` handler: state becomes `running` (the session's
`currentFrameId` field is not cleared; only the broadcast location is). -/
def continuedHandler (s : Session) : Session :=
  { s with state := SessionState.running }

/-- The `terminated` handler: state becomes `stopped`. -/
def terminatedHandler (s : Session) : Session :=
  { s with state := SessionState.stopped }

/-- The `exited` handler: state becomes `stopped` whatever the code. -/
def exitedHandler (s : Session) (exitCode : Int) : Session :=
  { s with state := SessionState.stopped }

/-- The guard of the execution-control tool cases:
`!session.dapClient || !session.currentThreadId` — note JS truthiness, a
thread id of 0 counts as absent. -/
def hasActiveThread (s : Session) : Bool :=
  s.hasDapClient &&
    (match s.currentThreadId with
     | some t => t != 0
     | none => false)

/-- The `debug_continue` tool case: after the guard it awaits
`dapClient.continue(...)` and then immediately sets the session state to
`running` upon the response. -/
def debugContinueOp (s : Session) (responseOk : Bool) : Except String Session :=
  if !(hasActiveThread s) then
    Except.error "not found, not connected, or no active thread"
  else if !responseOk then Except.error "continue request failed"
  else Except.ok { s with state := SessionState.running }

inductive StepKind where
  | stepOver
  | stepIn
  | stepOut
deriving DecidableEq

/-- DAP command sent per step kind (`next` / `stepIn` / `stepOut`). -/
def stepCommand : StepKind → String
  | StepKind.stepOver => "next"
  | StepKind.stepIn => "stepIn"
  | StepKind.stepOut => "stepOut"

/-- The `debug_step_over` / `debug_step_in` / `debug_step_out` tool cases:
same guard, await the step request, and return with no state change. -/
def debugStepOp (s : Session) (k : StepKind) (responseOk : Bool) :
    Except String Session :=
  if !(hasActiveThread s) then
    Except.error "not found, not connected, or no active thread"
  else if !responseOk then Except.error "step request failed"
  else Except.ok s

/-- `initializeThreadContext`: prime the thread/frame context after the
handshake from the `threads` result and (when available) the top stack
frame. -/
def initializeThreadContext (s : Session) (threads : List Nat)
    (frames : List StackFrameModel) : Session :=
  match threads with
  | [] => s
  | t :: _ =>
    match frames with
    | f :: _ => { s with currentThreadId := some t, currentFrameId := some f.id }
    | [] => { s with currentThreadId := some t }

inductive SessionEvent where
  | stoppedEv (threadId : Option Nat) (fetched : Option (List StackFrameModel))
  | continuedEv
  | terminatedEv
  | exitedEv (exitCode : Int)
  | primeThreadContext (threads : List Nat) (frames : List StackFrameModel)
  | continueResponse
  | stepResponse (k : StepKind)
  | handshakeCompleted

/-- One step of the session state machine: the DAP event handlers plus the
session-mutating completions of the control operations (`errors` leave the
session unchanged). -/
def sessionStep (s : Session) (e : SessionEvent) : Session :=
  match e with
  | SessionEvent.stoppedEv tid fetched => stoppedHandler s tid fetched
  | SessionEvent.continuedEv => continuedHandler s
  | SessionEvent.terminatedEv => terminatedHandler s
  | SessionEvent.exitedEv code => exitedHandler s code
  | SessionEvent.primeThreadContext th fr => initializeThreadContext s th fr
  | SessionEvent.continueResponse => ((debugContinueOp s true).toOption).getD s
  | SessionEvent.stepResponse k => ((debugStepOp s k true).toOption).getD s
  | SessionEvent.handshakeCompleted => { s with state := SessionState.running }

def runSession (s : Session) (evs : List SessionEvent) : Session :=
  evs.foldl sessionStep s

/-- C2: in `paused`, the current thread id is set, and the current frame
id is set at least whenever the stack trace fetched after the `stopped`
event was non-empty. -/
def pausedInvariant (s : Session) : Prop :=
  s.state = SessionState.paused →
    s.currentThreadId.isSome = true ∧
    (∀ f fs, s.lastStopFrames = some (f :: fs) → s.currentFrameId.isSome = true)

def strongInvariant (s : Session) : Prop :=
  (s.state = SessionState.paused → s.currentThreadId.isSome = true) ∧
  (∀ f fs, s.lastStopFrames = some (f :: fs) → s.currentFrameId.isSome = true)

theorem strongInvariant_step (s : Session) (e : SessionEvent)
    (h : strongInvariant s) : strongInvariant (sessionStep s e) := by
  obtain ⟨h1, h2⟩ := h
  cases e with
  | stoppedEv tid fetched =>
    cases tid with
    | none => exact ⟨h1, h2⟩
    | some t =>
      by_cases ht : t = 0
      · simp only [sessionStep, stoppedHandler, if_pos ht]
        exact ⟨h1, h2⟩
      · cases fetched with
        | none =>
          simp only [sessionStep, stoppedHandler, if_neg ht]
          exact ⟨fun _ => rfl, fun f fs hf => by simp at hf⟩
        | some frames =>
          cases frames with
          | nil =>
            simp only [sessionStep, stoppedHandler, if_neg ht]
            exact ⟨fun _ => rfl, fun f fs hf => by simp at hf⟩
          | cons fr rest =>
            simp only [sessionStep, stoppedHandler, if_neg ht]
            exact ⟨fun _ => rfl, fun f fs hf => rfl⟩
  | continuedEv =>
    refine ⟨fun hp => ?_, h2⟩
    simp [sessionStep, continuedHandler] at hp
  | terminatedEv =>
    refine ⟨fun hp => ?_, h2⟩
    simp [sessionStep, terminatedHandler] at hp
  | exitedEv code =>
    refine ⟨fun hp => ?_, h2⟩
    simp [sessionStep, exitedHandler] at hp
  | primeThreadContext th fr =>
    cases th with
    | nil => exact ⟨h1, h2⟩
    | cons t ts =>
      cases fr with
      | nil =>
        simp only [sessionStep, initializeThreadContext]
        exact ⟨fun _ => rfl, h2⟩
      | cons f fs =>
        simp only [sessionStep, initializeThreadContext]
        exact ⟨fun _ => rfl, fun f2 fs2 hf => rfl⟩
  | continueResponse =>
    by_cases hact : hasActiveThread s = true
    · simp only [sessionStep, debugContinueOp, hact]
      refine ⟨fun hp => ?_, h2⟩
      simp [Except.toOption] at hp
    · simp only [sessionStep, debugContinueOp, Bool.eq_false_iff.mpr hact]
      simp only [Bool.not_true, Bool.not_false]
      exact ⟨h1, h2⟩
  | stepResponse k =>
    by_cases hact : hasActiveThread s = true
    · simp only [sessionStep, debugStepOp, hact]
      exact ⟨h1, h2⟩
    · simp only [sessionStep, debugStepOp, Bool.eq_false_iff.mpr hact]
      simp only [Bool.not_true, Bool.not_false]
      exact ⟨h1, h2⟩
  | handshakeCompleted =>
    refine ⟨fun hp => ?_, h2⟩
    simp [sessionStep] at hp

theorem strongInvariant_run (evs : List SessionEvent) :
    ∀ s : Session, strongInvariant s → strongInvariant (runSession s evs) := by
  induction evs with
  | nil => intro s h; exact h
  | cons e es ih =>
    intro s h
    exact ih (sessionStep s e) (strongInvariant_step s e h)

/-- C2: for every session created by `createSession`, after any sequence
of DAP events and operation completions, whenever the state is `paused`
the current thread id is set, and the current frame id is set at least
whenever the stack trace fetched after the `stopped` event was non-empty
(the `stopped` handler is modelled as one atomic step, its fetched stack
passed as an input). -/
theorem session_paused_invariant (sid path : String) (port : Nat)
    (evs : List SessionEvent) :
    pausedInvariant (runSession (createSession sid path port) evs) := by
  have hinit : strongInvariant (createSession sid path port) := by
    constructor
    · intro hp
      simp [createSession] at hp
    · intro f fs hf
      simp [createSession] at hf
  have h := strongInvariant_run evs (createSession sid path port) hinit
  intro hp
  exact ⟨h.1 hp, h.2⟩

theorem session_paused_invariant_witness :
    pausedInvariant (runSession (createSession "s1" "/t/a.py" 5679)
      [SessionEvent.stoppedEv (some 1) (some [⟨10, "f", some "/t/a.py", 25⟩])]) :=
  session_paused_invariant "s1" "/t/a.py" 5679
    [SessionEvent.stoppedEv (some 1) (some [⟨10, "f", some "/t/a.py", 25⟩])]

/-- Whether an operation result preserved the session state (vacuously
true on an error, which leaves the session untouched). -/
def statePreservedB (r : Except String Session) (s : Session) : Bool :=
  match r with
  | Except.ok t => t.state == s.state
  | Except.error _ => true

/-- C1 as stated: all four control operations (continue and the three
steps) leave the session state unchanged upon the arrival of the response
— the state becomes `running` only on the `continued` event. -/
def runningOnlyOnContinuedClaim (s : Session) : Bool :=
  statePreservedB (debugContinueOp s true) s &&
  statePreservedB (debugStepOp s StepKind.stepOver true) s &&
  statePreservedB (debugStepOp s StepKind.stepIn true) s &&
  statePreservedB (debugStepOp s StepKind.stepOut true) s &&
  ((continuedHandler s).state == SessionState.running)

/-- C1 counterexample: on a paused session with current thread 1, the
`debug_continue` case sets the state to `running` immediately upon the
successful response (`sessionManager.updateSessionState(session_id,
'running')` right after the await), without any `continued` event. -/
theorem debug_continue_running_on_response_cex :
    runningOnlyOnContinuedClaim
        ⟨"s1", "/t/a.py", true, false, true, 5679, SessionState.paused, [],
          some 1, some 10, some [⟨10, "f", some "/t/a.py", 25⟩]⟩ = false := by
  decide

/-- C1 (amended): the step operations leave the session unchanged upon the
response (their state becomes `running` only via the `continued` event,
whose handler sets it); `debug_continue` additionally sets the state to
`running` immediately upon a successful response; with no active thread
every one of the four operations fails with the no-active-thread error. -/
theorem debug_ops_running_transition (s : Session) (h : hasActiveThread s = true) :
    (∀ k, debugStepOp s k true = Except.ok s) ∧
    debugContinueOp s true = Except.ok { s with state := SessionState.running } ∧
    (continuedHandler s).state = SessionState.running ∧
    (∀ s2 : Session, hasActiveThread s2 = false →
      debugContinueOp s2 true = Except.error "not found, not connected, or no active thread" ∧
      ∀ k, debugStepOp s2 k true =
        Except.error "not found, not connected, or no active thread") := by
  refine ⟨?_, ?_, rfl, ?_⟩
  · intro k
    unfold debugStepOp
    rw [h]
    rfl
  · unfold debugContinueOp
    rw [h]
    rfl
  · intro s2 h2
    constructor
    · unfold debugContinueOp
      rw [h2]
      rfl
    · intro k
      unfold debugStepOp
      rw [h2]
      rfl

theorem debug_ops_running_transition_witness :
    hasActiveThread
        ⟨"s1", "/t/a.py", true, false, true, 5679, SessionState.paused, [],
          some 1, some 10, some [⟨10, "f", some "/t/a.py", 25⟩]⟩ = true ∧
      ∀ k, debugStepOp
        ⟨"s1", "/t/a.py", true, false, true, 5679, SessionState.paused, [],
          some 1, some 10, some [⟨10, "f", some "/t/a.py", 25⟩]⟩ k true =
        Except.ok
          ⟨"s1", "/t/a.py", true, false, true, 5679, SessionState.paused, [],
            some 1, some 10, some [⟨10, "f", some "/t/a.py", 25⟩]⟩ :=
  ⟨by decide,
    (debug_ops_running_transition
      ⟨"s1", "/t/a.py", true, false, true, 5679, SessionState.paused, [],
        some 1, some 10, some [⟨10, "f", some "/t/a.py", 25⟩]⟩ (by decide)).1⟩

/-! ### Session termination (`SessionManager.terminateSession`) -/

inductive TermAction where
  | closeDap
  | signalTerm
  | scheduleForceKill (delayMs : Nat)
  | setStateStopped
  | removeBroadcastState
deriving DecidableEq

structure Registry where
  sessions : List (String × Session)
deriving DecidableEq

/-- `SessionManager.getSession` (the `sessions` map). -/
def Registry.getSession (r : Registry) (sid : String) : Option Session :=
  (r.sessions.find? (fun e => e.1 == sid)).map (fun e => e.2)

/-- `SessionManager.terminateSession`: missing session → no-op; otherwise
close the DAP client (when present), `SIGTERM` the subprocess and schedule
a forced `SIGKILL` check **2000 ms** later (when a process is present and
its `killed` flag is unset), set the state to `stopped`, drop the
broadcaster state, and delete the session from the map. -/
def terminateSession (r : Registry) (sid : String) : Registry × List TermAction :=
  match r.sessions.find? (fun e => e.1 == sid) with
  | none => (r, [])
  | some st =>
    (⟨r.sessions.filter (fun e => e.1 != sid)⟩,
     (if st.2.hasDapClient then [TermAction.closeDap] else []) ++
     (if st.2.hasPythonProcess && !st.2.processKilled then
        [TermAction.signalTerm, TermAction.scheduleForceKill 2000] else []) ++
     [TermAction.setStateStopped, TermAction.removeBroadcastState])

/-- C3 as stated: terminating a present session (with client and live
subprocess) closes the socket, sends SIGTERM, schedules the SIGKILL after
a **5-second** grace, sets the state stopped and evicts the session. -/
def terminateClaimAsStated (r : Registry) (sid : String) : Bool :=
  match r.getSession sid with
  | none => true
  | some s =>
    !(s.hasDapClient && s.hasPythonProcess && !s.processKilled) ||
    ((terminateSession r sid).2.contains TermAction.closeDap &&
     (terminateSession r sid).2.contains TermAction.signalTerm &&
     (terminateSession r sid).2.contains (TermAction.scheduleForceKill 5000) &&
     (terminateSession r sid).2.contains TermAction.setStateStopped &&
     ((terminateSession r sid).1.getSession sid == none))

/-- C3 counterexample: on a registry holding one running session (owned
subprocess alive, DAP client attached), `terminateSession` schedules the
forced kill 2000 ms after the SIGTERM — there is no 5-second grace
anywhere in `terminateSession`. -/
theorem terminate_grace_5s_cex :
    terminateClaimAsStated
        ⟨[("s1", ⟨"s1", "/t/a.py", true, false, true, 5679, SessionState.running,
            [], some 1, none, none⟩)]⟩ "s1" = false := by
  decide

/-- C3 (amended, proved): terminating a present non-terminal session with
an attached DAP client and a live owned subprocess closes the DAP socket,
sends SIGTERM, schedules the forced SIGKILL check after a **2-second**
grace (it fires only if the process's `killed` flag is still unset), sets
the session state to `stopped`, publishes the removal, and evicts the
session from the registry. -/
theorem terminate_session_teardown (r : Registry) (sid : String) (s : Session)
    (hget : r.getSession sid = some s)
    (hdap : s.hasDapClient = true) (hproc : s.hasPythonProcess = true)
    (hkill : s.processKilled = false) :
    (terminateSession r sid).2 =
      [TermAction.closeDap, TermAction.signalTerm, TermAction.scheduleForceKill 2000,
       TermAction.setStateStopped, TermAction.removeBroadcastState] ∧
    (terminateSession r sid).1.getSession sid = none := by
  unfold Registry.getSession at hget
  cases hfind : r.sessions.find? (fun e => e.1 == sid) with
  | none => rw [hfind] at hget; simp at hget
  | some entry =>
    rw [hfind] at hget
    simp only [Option.map_some', Option.some.injEq] at hget
    have hterm : terminateSession r sid =
        (⟨r.sessions.filter (fun e => e.1 != sid)⟩,
         [TermAction.closeDap, TermAction.signalTerm, TermAction.scheduleForceKill 2000,
          TermAction.setStateStopped, TermAction.removeBroadcastState]) := by
      unfold terminateSession
      simp only [hfind]
      rw [hget, hdap, hproc, hkill]
      rfl
    constructor
    · rw [hterm]
    · rw [hterm]
      unfold Registry.getSession
      have hnone : (r.sessions.filter (fun e => e.1 != sid)).find?
          (fun e => e.1 == sid) = none := by
        rw [List.find?_eq_none]
        intro x hx
        rw [List.mem_filter] at hx
        simpa using hx.2
      simp only [hnone, Option.map_none']

theorem terminate_session_teardown_witness :
    (Registry.getSession
        ⟨[("s1", ⟨"s1", "/t/a.py", true, false, true, 5679, SessionState.running,
            [], some 1, none, none⟩)]⟩ "s1" =
      some ⟨"s1", "/t/a.py", true, false, true, 5679, SessionState.running,
        [], some 1, none, none⟩) ∧
      (terminateSession
          ⟨[("s1", ⟨"s1", "/t/a.py", true, false, true, 5679, SessionState.running,
              [], some 1, none, none⟩)]⟩ "s1").2 =
        [TermAction.closeDap, TermAction.signalTerm, TermAction.scheduleForceKill 2000,
         TermAction.setStateStopped, TermAction.removeBroadcastState] :=
  ⟨by decide,
    (terminate_session_teardown
      ⟨[("s1", ⟨"s1", "/t/a.py", true, false, true, 5679, SessionState.running,
          [], some 1, none, none⟩)]⟩ "s1"
      ⟨"s1", "/t/a.py", true, false, true, 5679, SessionState.running,
        [], some 1, none, none⟩ (by decide) rfl rfl rfl).1⟩

/-! ### Breakpoint response mapping and the breakpoint table

`set_breakpoint` / `remove_breakpoint` send the full desired line list and
replace the cached entry for the file with the positionally mapped
response: `response.breakpoints.map((bp, index) => ({ id: bp.id || index,
file, line: existingLines[index], verified: bp.verified }))`. -/

structure BreakpointRespItem where
  id : Option Nat
  verified : Bool
deriving DecidableEq

/-- JS `bp.id || index`: both `undefined` and `0` are falsy and fall back
to the array index. -/
def jsIdOrIndex (idField : Option Nat) (index : Nat) : Nat :=
  match idField with
  | none => index
  | some n => if n = 0 then index else n

def mapRespAux (file : String) (ls : List Nat) :
    Nat → List BreakpointRespItem → List Breakpoint
  | _, [] => []
  | i, r :: rs =>
    ⟨jsIdOrIndex r.id i, file, ls.getD i 0, r.verified⟩ :: mapRespAux file ls (i + 1) rs

def mapRespToBreakpoints (file : String) (ls : List Nat)
    (resp : List BreakpointRespItem) : List Breakpoint :=
  mapRespAux file ls 0 resp

def bpDefault : Breakpoint := ⟨0, "", 0, false⟩

def respDefault : BreakpointRespItem := ⟨none, false⟩

/-- C7 as stated: positional correspondence, index fallback when the id is
omitted, and the adapter-assigned id used exactly when the adapter
supplies one. -/
abbrev c7IdClaimAsStated (file : String) (ls : List Nat)
    (resp : List BreakpointRespItem) : Prop :=
  ∀ i, i < resp.length →
    (mapRespToBreakpoints file ls resp).getD i bpDefault =
      ⟨(match (resp.getD i respDefault).id with | some n => n | none => i),
        file, ls.getD i 0, (resp.getD i respDefault).verified⟩

/-- C7 counterexample: when the adapter supplies the id `0` at position 1,
`bp.id || index` stores the index `1`, not the supplied id `0` — the
adapter-assigned id is not used although the adapter supplied one. -/
theorem breakpoint_id_zero_cex :
    ¬ c7IdClaimAsStated "/t/a.py" [10, 20] [⟨some 5, true⟩, ⟨some 0, true⟩] := by
  decide

theorem mapRespAux_length (file : String) (ls : List Nat) :
    ∀ (resp : List BreakpointRespItem) (k : Nat),
      (mapRespAux file ls k resp).length = resp.length := by
  intro resp
  induction resp with
  | nil => intro k; rfl
  | cons r rs ih =>
    intro k
    simp only [mapRespAux, List.length_cons, ih (k + 1)]

theorem mapRespAux_getD (file : String) (ls : List Nat) :
    ∀ (resp : List BreakpointRespItem) (k i : Nat), i < resp.length →
      (mapRespAux file ls k resp).getD i bpDefault =
        ⟨jsIdOrIndex (resp.getD i respDefault).id (k + i), file, ls.getD (k + i) 0,
          (resp.getD i respDefault).verified⟩ := by
  intro resp
  induction resp with
  | nil => intro k i hi; simp at hi
  | cons r rs ih =>
    intro k i hi
    cases i with
    | zero => simp [mapRespAux]
    | succ j =>
      have hj : j < rs.length := by simpa using hi
      simp only [mapRespAux, List.getD_cons_succ]
      rw [ih (k + 1) j hj]
      have he : k + 1 + j = k + (j + 1) := by omega
      rw [he]

/-- C7 (amended, proved): positional correspondence is preserved — the
stored breakpoint at position `i` carries the requested line at `i` and
the response's `verified` flag at `i` — and the stored id is
`bp.id || index`: the adapter's id when it is supplied and non-zero, and
the insertion index when the adapter omits it or supplies `0`. -/
theorem breakpoint_id_fallback (file : String) (ls : List Nat)
    (resp : List BreakpointRespItem) (i : Nat) (hi : i < resp.length) :
    (mapRespToBreakpoints file ls resp).length = resp.length ∧
    (mapRespToBreakpoints file ls resp).getD i bpDefault =
      ⟨jsIdOrIndex (resp.getD i respDefault).id i, file, ls.getD i 0,
        (resp.getD i respDefault).verified⟩ := by
  constructor
  · exact mapRespAux_length file ls resp 0
  · have h := mapRespAux_getD file ls resp 0 i hi
    simpa using h

theorem breakpoint_id_fallback_witness :
    (1 < ([⟨some 5, true⟩, ⟨some 0, true⟩] : List BreakpointRespItem).length) ∧
      (mapRespToBreakpoints "/t/a.py" [10, 20] [⟨some 5, true⟩, ⟨some 0, true⟩]).getD 1
          bpDefault =
        ⟨jsIdOrIndex (some 0) 1, "/t/a.py", 20, true⟩ :=
  ⟨by decide,
    (breakpoint_id_fallback "/t/a.py" [10, 20] [⟨some 5, true⟩, ⟨some 0, true⟩] 1
      (by decide)).2⟩

/-- `set_breakpoint`'s line union: push the line when not already present
(`if (!existingLines.includes(line)) existingLines.push(line)`). -/
def addLineIfAbsent (ls : List Nat) (line : Nat) : List Nat :=
  if line ∈ ls then ls else ls ++ [line]

/-- `session.breakpoints.get(file) || []` over the association-list model
of the `Map`. -/
def tableGet (tbl : List (String × List Breakpoint)) (file : String) :
    List Breakpoint :=
  ((tbl.find? (fun e => e.1 == file)).map (fun e => e.2)).getD []

/-- `session.breakpoints.set(file, bps)`: replace the entry in place, or
append a fresh one. -/
def tableSet (tbl : List (String × List Breakpoint)) (file : String)
    (bps : List Breakpoint) : List (String × List Breakpoint) :=
  if (tbl.find? (fun e => e.1 == file)).isSome then
    tbl.map (fun e => if e.1 == file then (file, bps) else e)
  else tbl ++ [(file, bps)]

/-- The `set_breakpoint` tool case (index.ts 586-617): union the cached
lines for the file with the new line, send the full list via
`setBreakpoints`, and replace the cached entry with the positionally
mapped response.  The adapter's response array is given by the function
`adapter` of the requested line list. -/
def setBreakpointStep (adapter : List Nat → List BreakpointRespItem)
    (tbl : List (String × List Breakpoint)) (file : String) (line : Nat) :
    List (String × List Breakpoint) :=
  let existingLines := (tableGet tbl file).map (fun bp => bp.line)
  let newLines := addLineIfAbsent existingLines line
  tableSet tbl file (mapRespToBreakpoints file newLines (adapter newLines))

/-- `SessionManager.getBreakpoints` for one file. -/
def listBreakpoints (tbl : List (String × List Breakpoint)) (file : String) :
    List Breakpoint :=
  tableGet tbl file

theorem find?_map_replace (file : String) (bps : List Breakpoint) :
    ∀ tbl : List (String × List Breakpoint),
      (tbl.find? (fun e => e.1 == file)).isSome →
      ((tbl.map (fun e => if e.1 == file then (file, bps) else e)).find?
        (fun e => e.1 == file)) = some (file, bps) := by
  intro tbl
  induction tbl with
  | nil => intro h; simp [List.find?] at h
  | cons x xs ih =>
    intro h
    by_cases hx : (x.1 == file) = true
    · simp only [List.map_cons, hx, if_true]
      rw [List.find?_cons_of_pos]
      simp
    · simp only [List.map_cons, hx, if_false]
      rw [List.find?_cons_of_neg _ (by simpa using hx)]
      apply ih
      rw [List.find?_cons_of_neg _ (by simpa using hx)] at h
      exact h

theorem tableGet_tableSet (tbl : List (String × List Breakpoint)) (file : String)
    (bps : List Breakpoint) : tableGet (tableSet tbl file bps) file = bps := by
  unfold tableSet
  by_cases h : (tbl.find? (fun e => e.1 == file)).isSome
  · rw [if_pos h]
    unfold tableGet
    rw [find?_map_replace file bps tbl h]
    rfl
  · rw [if_neg h]
    unfold tableGet
    have hnone : tbl.find? (fun e => e.1 == file) = none := by
      cases hf : tbl.find? (fun e => e.1 == file) with
      | none => rfl
      | some e => rw [hf] at h; simp at h
    rw [List.find?_append, hnone]
    simp

theorem mapRespAux_lines (file : String) (ls : List Nat) :
    ∀ (resp : List BreakpointRespItem) (k : Nat), k + resp.length = ls.length →
      (mapRespAux file ls k resp).map (fun bp => bp.line) = ls.drop k := by
  intro resp
  induction resp with
  | nil =>
    intro k hk
    simp only [List.length_nil] at hk
    simp [mapRespAux, (List.drop_eq_nil_of_le (by omega : ls.length ≤ k)).symm]
  | cons r rs ih =>
    intro k hk
    have hklt : k < ls.length := by simp at hk; omega
    simp only [mapRespAux, List.map_cons]
    rw [ih (k + 1) (by simp at hk ⊢; omega)]
    rw [List.drop_eq_getElem_cons hklt, List.getD_eq_getElem ls 0 hklt]

theorem setBreakpointStep_lines (adapter : List Nat → List BreakpointRespItem)
    (hA : ∀ ls, (adapter ls).length = ls.length)
    (tbl : List (String × List Breakpoint)) (file : String) (line : Nat) :
    (tableGet (setBreakpointStep adapter tbl file line) file).map (fun bp => bp.line)
      = addLineIfAbsent ((tableGet tbl file).map (fun bp => bp.line)) line := by
  unfold setBreakpointStep
  rw [tableGet_tableSet]
  unfold mapRespToBreakpoints
  exact mapRespAux_lines file _ _ 0 (by rw [hA]; omega)

def runSetBreakpoints (adapter : List Nat → List BreakpointRespItem)
    (file : String) (calls : List Nat) : List (String × List Breakpoint) :=
  calls.foldl (fun tbl line => setBreakpointStep adapter tbl file line) []

theorem runSetBreakpoints_lines (adapter : List Nat → List BreakpointRespItem)
    (hA : ∀ ls, (adapter ls).length = ls.length) (file : String) :
    ∀ (calls : List Nat) (tbl : List (String × List Breakpoint)),
      (tableGet (calls.foldl (fun t l => setBreakpointStep adapter t file l) tbl)
          file).map (fun bp => bp.line)
        = calls.foldl addLineIfAbsent ((tableGet tbl file).map (fun bp => bp.line)) := by
  intro calls
  induction calls with
  | nil => intro tbl; rfl
  | cons c cs ih =>
    intro tbl
    rw [List.foldl_cons, List.foldl_cons, ih (setBreakpointStep adapter tbl file c),
      setBreakpointStep_lines adapter hA tbl file c]

theorem addLineIfAbsent_nodup (ls : List Nat) (line : Nat) (h : ls.Nodup) :
    (addLineIfAbsent ls line).Nodup := by
  unfold addLineIfAbsent
  by_cases hm : line ∈ ls
  · rw [if_pos hm]; exact h
  · rw [if_neg hm]
    rw [List.nodup_append]
    exact ⟨h, List.nodup_singleton line, by
      intro a ha hb
      simp at hb
      rw [hb] at ha
      exact hm ha⟩

theorem mem_addLineIfAbsent_self (ls : List Nat) (line : Nat) :
    line ∈ addLineIfAbsent ls line := by
  unfold addLineIfAbsent
  by_cases hm : line ∈ ls
  · rw [if_pos hm]; exact hm
  · rw [if_neg hm]; simp

theorem mem_addLineIfAbsent_mono (ls : List Nat) (a line : Nat) (h : a ∈ ls) :
    a ∈ addLineIfAbsent ls line := by
  unfold addLineIfAbsent
  by_cases hm : line ∈ ls
  · rw [if_pos hm]; exact h
  · rw [if_neg hm]; exact List.mem_append_left _ h

theorem foldl_addLine_nodup (calls : List Nat) :
    ∀ ls : List Nat, ls.Nodup → (calls.foldl addLineIfAbsent ls).Nodup := by
  induction calls with
  | nil => intro ls h; exact h
  | cons c cs ih =>
    intro ls h
    exact ih (addLineIfAbsent ls c) (addLineIfAbsent_nodup ls c h)

theorem mem_foldl_addLine_mono (calls : List Nat) :
    ∀ (ls : List Nat) (a : Nat), a ∈ ls → a ∈ calls.foldl addLineIfAbsent ls := by
  induction calls with
  | nil => intro ls a h; exact h
  | cons c cs ih =>
    intro ls a h
    exact ih (addLineIfAbsent ls c) a (mem_addLineIfAbsent_mono ls a c h)

theorem mem_foldl_addLine (calls : List Nat) :
    ∀ (ls : List Nat) (line : Nat), line ∈ calls →
      line ∈ calls.foldl addLineIfAbsent ls := by
  induction calls with
  | nil => intro ls line h; simp at h
  | cons c cs ih =>
    intro ls line h
    rcases List.mem_cons.mp h with h | h
    · rw [h, List.foldl_cons]
      exact mem_foldl_addLine_mono cs (addLineIfAbsent ls c) c
        (mem_addLineIfAbsent_self ls c)
    · exact ih (addLineIfAbsent ls c) line h

/-- C8: starting from an empty breakpoint table, after any sequence of
`set_breakpoint` calls on file `f` (each answered positionally by the
adapter) that contains the line `L` — including duplicate calls —
`listBreakpoints(f)` returns a list whose lines contain `L` exactly
once. -/
theorem set_breakpoint_idempotent (adapter : List Nat → List BreakpointRespItem)
    (file : String) (calls : List Nat) (line : Nat)
    (hA : ∀ ls, (adapter ls).length = ls.length)
    (hmem : line ∈ calls) :
    ((listBreakpoints (runSetBreakpoints adapter file calls) file).map
      (fun bp => bp.line)).count line = 1 := by
  unfold listBreakpoints runSetBreakpoints
  rw [runSetBreakpoints_lines adapter hA file calls []]
  have h0 : (tableGet [] file).map (fun bp => bp.line) = [] := rfl
  rw [h0]
  exact List.count_eq_one_of_mem (foldl_addLine_nodup calls [] List.nodup_nil)
    (mem_foldl_addLine calls [] line hmem)

theorem set_breakpoint_idempotent_witness :
    (∀ ls : List Nat,
        ((fun ls2 : List Nat => ls2.map (fun _ => (⟨none, true⟩ : BreakpointRespItem))) ls).length
          = ls.length) ∧
      (7 ∈ ([7, 7] : List Nat)) ∧
      ((listBreakpoints (runSetBreakpoints
          (fun ls2 : List Nat => ls2.map (fun _ => (⟨none, true⟩ : BreakpointRespItem)))
          "/t/a.py" [7, 7]) "/t/a.py").map (fun bp => bp.line)).count 7 = 1 :=
  ⟨fun ls => List.length_map ls _, by decide,
    set_breakpoint_idempotent
      (fun ls2 : List Nat => ls2.map (fun _ => (⟨none, true⟩ : BreakpointRespItem)))
      "/t/a.py" [7, 7] 7 (fun ls => List.length_map ls _) (by decide)⟩

/-! ### The attach rendezvous (`performAttachSequence`, index.ts 1232-1275)

Each attempt is driven by two facts of its environment: whether the
`initialized` event reaches the one-shot listener within its 15-second
deadline, and whether the `attach` request's await resolves or rejects
(`dapClient.attach()` always settles within its own 10-second request
timeout, so the attempt always proceeds to await the event). -/

structure AttachAttemptEnv where
  initializedWithinDeadline : Bool
  attachResponseOk : Bool
deriving DecidableEq

inductive AttachAction where
  | registerInitializedListener (deadlineMs : Nat)
  | sendAttachRequest
  | logAttachFailedKeepWaiting
  | waitBetweenAttempts (ms : Nat)
deriving DecidableEq

/-- One attempt: the one-shot `initialized` rendezvous (15000 ms deadline)
is constructed before anything else; then `attach` is sent — a rejection
is only logged and the attempt keeps awaiting the event; the attempt
succeeds iff the event arrives within the deadline. -/
def attachAttemptTrace (env : AttachAttemptEnv) : List AttachAction :=
  [AttachAction.registerInitializedListener 15000, AttachAction.sendAttachRequest] ++
    (if env.attachResponseOk then [] else [AttachAction.logAttachFailedKeepWaiting])

def attachAttemptSucceeds (env : AttachAttemptEnv) : Bool :=
  env.initializedWithinDeadline

/-- `performAttachSequence`: up to 3 attempts with a 2000 ms sleep after a
failed attempt that is not the last; overall success as soon as one
attempt sees the event. -/
def performAttachSequence (e1 e2 e3 : AttachAttemptEnv) :
    Bool × List AttachAction :=
  if attachAttemptSucceeds e1 then (true, attachAttemptTrace e1)
  else if attachAttemptSucceeds e2 then
    (true, attachAttemptTrace e1 ++ [AttachAction.waitBetweenAttempts 2000] ++
      attachAttemptTrace e2)
  else
    (attachAttemptSucceeds e3,
     attachAttemptTrace e1 ++ [AttachAction.waitBetweenAttempts 2000] ++
       attachAttemptTrace e2 ++ [AttachAction.waitBetweenAttempts 2000] ++
       attachAttemptTrace e3)

/-- C9: every attempt registers the one-shot `initialized` listener with
its 15-second deadline before sending `attach`; an attempt whose `attach`
response rejects keeps awaiting the event (logging and continuing) and the
sequence succeeds when the event arrives within the deadline; overall the
sequence succeeds iff one of the up-to-3 attempts sees the event, with a
2-second wait following each failed non-final attempt. -/
theorem attach_sequence_event_rendezvous (e1 e2 e3 : AttachAttemptEnv)
    (hrej : e1.attachResponseOk = false)
    (hev : e1.initializedWithinDeadline = true) :
    (∀ env : AttachAttemptEnv, (attachAttemptTrace env).take 2 =
      [AttachAction.registerInitializedListener 15000,
       AttachAction.sendAttachRequest]) ∧
    attachAttemptTrace e1 =
      [AttachAction.registerInitializedListener 15000,
       AttachAction.sendAttachRequest, AttachAction.logAttachFailedKeepWaiting] ∧
    (performAttachSequence e1 e2 e3).1 = true ∧
    (∀ f1 f2 f3 : AttachAttemptEnv, (performAttachSequence f1 f2 f3).1 =
      (attachAttemptSucceeds f1 || attachAttemptSucceeds f2 ||
        attachAttemptSucceeds f3)) ∧
    (∀ f1 f2 f3 : AttachAttemptEnv, attachAttemptSucceeds f1 = false →
      AttachAction.waitBetweenAttempts 2000 ∈ (performAttachSequence f1 f2 f3).2) := by
  refine ⟨?_, ?_, ?_, ?_, ?_⟩
  · intro env
    unfold attachAttemptTrace
    split <;> rfl
  · unfold attachAttemptTrace
    rw [hrej]
    rfl
  · unfold performAttachSequence attachAttemptSucceeds
    rw [hev]
    rfl
  · intro f1 f2 f3
    unfold performAttachSequence
    by_cases h1 : attachAttemptSucceeds f1 = true
    · rw [if_pos h1, h1]
      rfl
    · rw [if_neg h1]
      rw [Bool.not_eq_true] at h1
      rw [h1]
      by_cases h2 : attachAttemptSucceeds f2 = true
      · rw [if_pos h2, h2]
        rfl
      · rw [if_neg h2]
        rw [Bool.not_eq_true] at h2
        rw [h2]
        simp
  · intro f1 f2 f3 h1
    unfold performAttachSequence
    rw [h1]
    simp only [Bool.false_eq_true, if_false]
    by_cases h2 : attachAttemptSucceeds f2 = true
    · rw [if_pos h2]
      simp
    · rw [if_neg h2]
      simp

theorem attach_sequence_event_rendezvous_witness :
    (⟨true, false⟩ : AttachAttemptEnv).attachResponseOk = false ∧
      (⟨true, false⟩ : AttachAttemptEnv).initializedWithinDeadline = true ∧
      (performAttachSequence ⟨true, false⟩ ⟨false, true⟩ ⟨false, false⟩).1 = true :=
  ⟨rfl, rfl,
    (attach_sequence_event_rendezvous ⟨true, false⟩ ⟨false, true⟩ ⟨false, false⟩
      rfl rfl).2.2.1⟩

end Spec2Proof
